import Mathlib

/-!
Verification of the caixaaberta snapshot-reconciliation and geocoding core.

The definitions below are a shallow embedding of the repository's Python
source:

* `update_records` embeds the reconciliation core of `src/psa.py`
  (lines 115-162): concatenate tagged history and deduplicated current
  data, carry `first_time_seen` by a grouped minimum, deduplicate keeping
  the last occurrence, fill `first_time_seen`, and set the lifecycle
  column `not_seen_since`.
* `consolidar_csvs` embeds the reconciliation core of
  `src/src/caixaaberta/pipeline.py` (lines 242-298), which differs from
  `update_records` only in how `not_seen_since` is written for rows that
  come from history alone (fillna versus unconditional assignment).
* `get_cached_coords` / `cache_coords` embed
  `src/src/caixaaberta/cache.py` (a SQLite table with the address as
  primary key; a duplicate insert raises IntegrityError which is caught
  and ignored).
* `get_coordinates_for_address` embeds
  `src/src/caixaaberta/geocoding_utils.py` (blank-address short circuit,
  cache-aside lookup, provider call with error classification, caching
  only of successful results).
* `geocodificar_dataframe` embeds the enrichment loop of
  `src/src/caixaaberta/pipeline.py` (lines 341-379).

Machine details that do not affect the verified claims are represented
abstractly: column values are `Option String` / `Option Rat`, dates are
natural numbers (day counts; the pandas minimum over ISO dates is the
numeric minimum), and the external geocoding provider is a parameter
returning a classified result.
-/

/-- One scraped listing row, after `limpar_colunas_financeiras`: the
eleven columns of `SCRAPING_COLS` in `src/src/caixaaberta/pipeline.py`
(equal to `cols` in `src/etl.py`).  Text columns are nullable strings,
financial columns nullable numbers. -/
structure Scraped where
  link : Option String
  endereco : Option String
  bairro : Option String
  descricao : Option String
  preco : Option Rat
  avaliacao : Option Rat
  desconto : Option Rat
  modalidade : Option String
  foto : Option String
  cidade : Option String
  estado : Option String
deriving DecidableEq, Repr

/-- The composite identity key of a listing: (region, city, link), as in
the spec glossary and in `transform` of `src/etl.py` (subset
["estado", "cidade", "link"]). -/
def identityKey (s : Scraped) : Option String × Option String × Option String :=
  (s.estado, s.cidade, s.link)

/-- One row of the consolidated history file `imoveis_BR.csv`: the
scraped columns plus latitude, longitude, first_time_seen and
not_seen_since (`consolidated_schema` in pipeline.py, `cols` in psa.py). -/
structure Row where
  scraped : Scraped
  latitude : Option Rat
  longitude : Option Rat
  first_time_seen : Option Nat
  not_seen_since : Option Nat
deriving DecidableEq, Repr

/-- Origin tag assigned by `.assign(dataset=...)` before the concat in
both reconciliation implementations. -/
inductive Dataset where
  | history
  | current
deriving DecidableEq, Repr

/-- A current-data row as built in pipeline.py lines 224-230 / psa.py
lines 104-109: scraped columns from the state file, latitude and
longitude initialised to NA, and the tracking columns NA after the
reindex to the consolidated schema. -/
def mkCurrentRow (s : Scraped) : Row :=
  { scraped := s, latitude := none, longitude := none
    first_time_seen := none, not_seen_since := none }

/-- Helper for keep-first deduplication: drops every element whose key
is in `seen` or occurred earlier in the list. -/
def dropDupFirstAux {α β : Type} [DecidableEq β] (key : α → β) :
    List β → List α → List α
  | _, [] => []
  | seen, x :: xs =>
      if seen.any (fun k => decide (k = key x)) then
        dropDupFirstAux key seen xs
      else
        x :: dropDupFirstAux key (key x :: seen) xs

/-- Embeds pandas `drop_duplicates(subset=key, keep="first")`: keeps the
first occurrence of every key, in the original order. -/
def drop_duplicates_keep_first {α β : Type} [DecidableEq β] (key : α → β)
    (l : List α) : List α :=
  dropDupFirstAux key [] l

/-- Embeds pandas `drop_duplicates(subset=key, keep="last")`: keeps the
last occurrence of every key, in the original order. -/
def drop_duplicates_keep_last {α β : Type} [DecidableEq β] (key : α → β) :
    List α → List α
  | [] => []
  | x :: xs =>
      if xs.any (fun y => decide (key y = key x)) then
        drop_duplicates_keep_last key xs
      else
        x :: drop_duplicates_keep_last key xs

/-- True when any of the eleven scraped columns is null.  Pandas
`groupby` with the default `dropna=True` excludes rows whose key
contains NaN, and `transform` yields NaN for those rows. -/
def Scraped.hasNA (s : Scraped) : Bool :=
  s.link.isNone || s.endereco.isNone || s.bairro.isNone || s.descricao.isNone ||
    s.preco.isNone || s.avaliacao.isNone || s.desconto.isNone ||
    s.modalidade.isNone || s.foto.isNone || s.cidade.isNone || s.estado.isNone

/-- Embeds `groupby(SCRAPING_COLS)['first_time_seen'].transform('min')`
evaluated at group `k`: the minimum of the non-null first_time_seen
values of all rows sharing the full scraped tuple `k` (NaN when the
group has no non-null value, and NaN for NaN-containing keys, which
pandas drops from the grouping). -/
def carried_first_time_seen (combined : List (Dataset × Row)) (k : Scraped) :
    Option Nat :=
  if k.hasNA then none
  else
    ((combined.filter (fun p => decide (p.2.scraped = k))).filterMap
        (fun p => p.2.first_time_seen)).min?

/-- The tagged concatenation `pd.concat([history, current_data])` with
the `dataset` column. -/
def combineTagged (history current : List Row) : List (Dataset × Row) :=
  history.map (fun r => (Dataset.history, r)) ++
    current.map (fun r => (Dataset.current, r))

/-- Steps shared verbatim by psa.py lines 115-160 and pipeline.py lines
242-282: deduplicate the current data by the full scraped tuple keeping
the first occurrence, concatenate with tagged history, carry
first_time_seen by the grouped minimum, deduplicate by the full scraped
tuple keeping the last occurrence, and fill null first_time_seen with
the run date. -/
def reconcileShared (history : List Row) (snapshot : List Scraped) (today : Nat) :
    List (Dataset × Row) :=
  let current := (drop_duplicates_keep_first id snapshot).map mkCurrentRow
  let combined := combineTagged history current
  let withFts := combined.map
    (fun p => (p.1, { p.2 with first_time_seen := carried_first_time_seen combined p.2.scraped }))
  let deduped := drop_duplicates_keep_last (fun p => p.2.scraped) withFts
  deduped.map
    (fun p => (p.1, { p.2 with first_time_seen := some (p.2.first_time_seen.getD today) }))

/-- Reconciliation core of `consolidar_csvs` in
`src/src/caixaaberta/pipeline.py` lines 242-298.  After the shared
steps, rows tagged current get not_seen_since = NaT (line 290) and rows
tagged history get `not_seen_since.fillna(now_timestamp)` (lines
297-298), so an already-set disappearance date is kept.  File I/O,
financial cleaning and the final sort are outside the embedded core. -/
def consolidar_csvs (history : List Row) (snapshot : List Scraped) (today : Nat) :
    List Row :=
  (reconcileShared history snapshot today).map
    (fun p =>
      match p.1 with
      | Dataset.current => { p.2 with not_seen_since := none }
      | Dataset.history => { p.2 with not_seen_since := some (p.2.not_seen_since.getD today) })

/-- Reconciliation core of `update_records` in `src/psa.py` lines
115-162.  Identical to `consolidar_csvs` except line 161: rows tagged
history get `not_seen_since = now_timestamp` unconditionally, replacing
any previously recorded disappearance date. -/
def update_records (history : List Row) (snapshot : List Scraped) (today : Nat) :
    List Row :=
  (reconcileShared history snapshot today).map
    (fun p =>
      match p.1 with
      | Dataset.current => { p.2 with not_seen_since := none }
      | Dataset.history => { p.2 with not_seen_since := some today })

/-- The geocode cache `coords` table of `src/src/caixaaberta/cache.py`:
a sequence of (address, lat, lon) entries; the address column is the
primary key. -/
abbrev Cache : Type := List (String × Rat × Rat)

/-- Embeds `get_cached_coords` of `src/src/caixaaberta/cache.py` lines
35-56: SELECT lat, lon FROM coords WHERE address = a, returning the
stored pair or None. -/
def get_cached_coords (c : Cache) (address : String) : Option (Rat × Rat) :=
  (List.find? (fun e => decide (e.1 = address)) c).map (fun e => e.2)

/-- Embeds `cache_coords` of `src/src/caixaaberta/cache.py` lines 58-80:
INSERT INTO coords VALUES (address, lat, lon).  When the address is
already present the INSERT raises sqlite3.IntegrityError, which the
function catches and ignores, leaving the original entry in place. -/
def cache_coords (c : Cache) (address : String) (lat lon : Rat) : Cache :=
  if List.any c (fun e => decide (e.1 = address)) then c
  else c ++ [(address, lat, lon)]

/-- Classified outcome of one provider call in
`src/src/caixaaberta/geocoding_utils.py` lines 61-83: a location with
coordinates, a response without a usable location, or one of the caught
exception classes (GeocoderTimedOut, GeocoderUnavailable,
GeocoderServiceError, any other exception). -/
inductive GeoResult where
  | ok (lat lon : Rat)
  | noResult
  | timedOut
  | unavailable
  | serviceError
  | unexpectedError
deriving DecidableEq, Repr

/-- Embeds the Python test `not address_str or address_str.strip() == ""`
used by both geocoding_utils variants: true exactly when the string is
empty or consists of whitespace only. -/
def strBlank (s : String) : Bool :=
  s.data.all Char.isWhitespace

/-- Embeds `get_coordinates_for_address` of
`src/src/caixaaberta/geocoding_utils.py` lines 18-83, with the external
Nominatim call abstracted as the `provider` parameter.  Empty or
whitespace-only addresses short-circuit to (None, None); otherwise the
cache is consulted first; on a miss the provider is called, a successful
location is cached and returned, and every failure branch returns
(None, None) without touching the cache and without raising. -/
def get_coordinates_for_address (provider : String → GeoResult) (c : Cache)
    (address_str : String) : (Option Rat × Option Rat) × Cache :=
  if strBlank address_str then ((none, none), c)
  else
    match get_cached_coords c address_str with
    | some (lat, lon) => ((some lat, some lon), c)
    | none =>
        match provider address_str with
        | GeoResult.ok lat lon =>
            ((some lat, some lon), cache_coords c address_str lat lon)
        | _ => ((none, none), c)

/-- Embeds the address construction of `geocodificar_dataframe`
(`src/src/caixaaberta/pipeline.py` lines 360-366): join the non-null,
non-blank parts endereco, bairro, cidade, estado with a comma and a
space. -/
def buildAddress (r : Row) : String :=
  String.intercalate ", "
    (([r.scraped.endereco, r.scraped.bairro, r.scraped.cidade,
        r.scraped.estado].filterMap id).filter (fun s => !(strBlank s)))

/-- Embeds the enrichment loop of `geocodificar_dataframe`
(`src/src/caixaaberta/pipeline.py` lines 341-379): every row whose
latitude is null and whose built address is non-empty is resolved via
`get_coordinates_for_address` (threading the cache), and the returned
pair is written into the latitude and longitude columns of that row;
all other rows are left untouched. -/
def geocodificar_dataframe (provider : String → GeoResult) :
    Cache → List Row → List Row × Cache
  | c, [] => ([], c)
  | c, r :: rs =>
      if r.latitude = none then
        let addr := buildAddress r
        if addr = "" then
          let rec_rest := geocodificar_dataframe provider c rs
          (r :: rec_rest.1, rec_rest.2)
        else
          let step := get_coordinates_for_address provider c addr
          let r2 := { r with latitude := step.1.1, longitude := step.1.2 }
          let rec_rest := geocodificar_dataframe provider step.2 rs
          (r2 :: rec_rest.1, rec_rest.2)
      else
        let rec_rest := geocodificar_dataframe provider c rs
        (r :: rec_rest.1, rec_rest.2)

/-- Client-side minimum delay between provider requests configured in
`src/geocoding_utils.py` line 12: the geocode callable is wrapped in
`RateLimiter(min_delay_seconds=1)`. -/
def legacy_min_delay_seconds : Option Nat := some 1

/-- Client-side minimum delay between provider requests in
`src/src/caixaaberta/geocoding_utils.py` lines 53-61: the RateLimiter
wrapper is commented out and `geolocator.geocode` is called directly,
so no inter-request spacing is enforced by the client. -/
def caixaaberta_min_delay_seconds : Option Nat := none

/-! Derived normal forms and supporting lemmas.

The reconciliation functions are proven equal to an explicit per-key
normal form: history rows whose full scraped tuple has no later
duplicate and does not occur in the deduplicated snapshot, followed by
one row per deduplicated snapshot tuple. -/

/-- The last occurrence of every full scraped tuple in a history table,
in order. -/
def lastByScraped (H : List Row) : List Row :=
  drop_duplicates_keep_last (fun r => r.scraped) H

/-- The grouped minimum carrying first_time_seen, restricted to history
rows (current rows contribute no value since their first_time_seen is
null). -/
def histMin (H : List Row) (k : Scraped) : Option Nat :=
  if k.hasNA then none
  else
    ((H.filter (fun r => decide (r.scraped = k))).filterMap
        (fun r => r.first_time_seen)).min?

theorem dropDupFirstAux_id_mem {α : Type} [DecidableEq α] (seen : List α)
    (l : List α) (x : α) :
    x ∈ dropDupFirstAux id seen l ↔ x ∈ l ∧ x ∉ seen := by
  induction l generalizing seen with
  | nil => simp [dropDupFirstAux]
  | cons y ys ih =>
    simp only [dropDupFirstAux, id]
    by_cases h : List.any seen (fun k => decide (k = y)) = true
    · rw [if_pos h, ih]
      have hy : y ∈ seen := by
        rcases List.any_eq_true.mp h with ⟨k, hk, hkk⟩
        have : k = y := of_decide_eq_true hkk
        exact this ▸ hk
      constructor
      · rintro ⟨h1, h2⟩
        exact ⟨List.mem_cons_of_mem _ h1, h2⟩
      · rintro ⟨h1, h2⟩
        rcases List.mem_cons.mp h1 with rfl | h1
        · exact absurd hy h2
        · exact ⟨h1, h2⟩
    · rw [if_neg h]
      simp only [List.mem_cons, ih, List.mem_cons, not_or]
      constructor
      · rintro (rfl | ⟨h1, ⟨h2, h3⟩⟩)
        · refine ⟨Or.inl rfl, ?_⟩
          intro hx
          exact h (List.any_eq_true.mpr ⟨x, hx, by simp⟩)
        · exact ⟨Or.inr h1, h3⟩
      · rintro ⟨h1, h2⟩
        by_cases hxy : x = y
        · exact Or.inl hxy
        · rcases h1 with rfl | h1
          · exact Or.inl rfl
          · exact Or.inr ⟨h1, hxy, h2⟩

theorem dropDupFirstAux_id_nodup {α : Type} [DecidableEq α] (seen : List α)
    (l : List α) : (dropDupFirstAux id seen l).Nodup := by
  induction l generalizing seen with
  | nil => simp [dropDupFirstAux]
  | cons y ys ih =>
    simp only [dropDupFirstAux]
    by_cases h : List.any seen (fun k => decide (k = id y)) = true
    · rw [if_pos h]
      exact ih _
    · rw [if_neg h]
      refine List.nodup_cons.mpr ⟨?_, ih _⟩
      intro hy
      have := (dropDupFirstAux_id_mem _ _ _).mp hy
      exact this.2 (List.mem_cons_self _ _)

/-- Keep-first deduplication with the identity key keeps exactly the
distinct values. -/
theorem dropDupFirst_id_mem {α : Type} [DecidableEq α] (l : List α) (x : α) :
    x ∈ drop_duplicates_keep_first id l ↔ x ∈ l := by
  unfold drop_duplicates_keep_first
  rw [dropDupFirstAux_id_mem]
  simp

/-- Keep-first deduplication with the identity key yields a list without
duplicates. -/
theorem dropDupFirst_id_nodup {α : Type} [DecidableEq α] (l : List α) :
    (drop_duplicates_keep_first id l).Nodup :=
  dropDupFirstAux_id_nodup [] l

theorem dropDupLast_subset {α β : Type} [DecidableEq β] (key : α → β)
    (l : List α) (x : α) (hx : x ∈ drop_duplicates_keep_last key l) : x ∈ l := by
  induction l with
  | nil => simp [drop_duplicates_keep_last] at hx
  | cons y ys ih =>
    simp only [drop_duplicates_keep_last] at hx
    by_cases h : ys.any (fun z => decide (key z = key y)) = true
    · rw [if_pos h] at hx
      exact List.mem_cons_of_mem _ (ih hx)
    · rw [if_neg h] at hx
      rcases List.mem_cons.mp hx with rfl | hx
      · exact List.mem_cons_self _ _
      · exact List.mem_cons_of_mem _ (ih hx)

theorem any_map_general {α β : Type} (f : α → β) (l : List α) (p : β → Bool) :
    (l.map f).any p = l.any (fun x => p (f x)) := by
  induction l with
  | nil => rfl
  | cons x xs ih => simp [List.any_cons, ih]

theorem dropDupLast_append {α β : Type} [DecidableEq β] (key : α → β)
    (l1 l2 : List α) :
    drop_duplicates_keep_last key (l1 ++ l2) =
      (drop_duplicates_keep_last key l1).filter
          (fun x => !(l2.any (fun y => decide (key y = key x))))
        ++ drop_duplicates_keep_last key l2 := by
  induction l1 with
  | nil => simp [drop_duplicates_keep_last]
  | cons x xs ih =>
    simp only [List.cons_append, drop_duplicates_keep_last, List.append_eq,
      List.any_append]
    by_cases h1 : xs.any (fun y => decide (key y = key x)) = true
    · simp only [h1, Bool.true_or, if_true, ih, if_pos h1]
    · by_cases h2 : l2.any (fun y => decide (key y = key x)) = true
      · have hb1 : xs.any (fun y => decide (key y = key x)) = false :=
          Bool.eq_false_iff.mpr h1
        simp only [hb1, h2, Bool.false_or, if_true, ih]
        rw [if_neg Bool.false_ne_true, List.filter_cons]
        simp only [h2, Bool.not_true]
        rw [if_neg Bool.false_ne_true]
      · have hb1 : xs.any (fun y => decide (key y = key x)) = false :=
          Bool.eq_false_iff.mpr h1
        have hb2 : l2.any (fun y => decide (key y = key x)) = false :=
          Bool.eq_false_iff.mpr h2
        simp only [hb1, hb2, Bool.false_or, ih]
        rw [if_neg Bool.false_ne_true, if_neg Bool.false_ne_true, List.filter_cons]
        simp only [hb2, Bool.not_false]
        rw [if_pos trivial, List.cons_append]

theorem dropDupLast_map {α β γ : Type} [DecidableEq γ] (key1 : α → γ)
    (key2 : β → γ) (f : α → β) (hk : ∀ x, key2 (f x) = key1 x) (l : List α) :
    drop_duplicates_keep_last key2 (l.map f) =
      (drop_duplicates_keep_last key1 l).map f := by
  induction l with
  | nil => simp [drop_duplicates_keep_last]
  | cons x xs ih =>
    simp only [List.map_cons, drop_duplicates_keep_last]
    have heq : ((List.map f xs).any fun y => decide (key2 y = key2 (f x)))
        = xs.any fun y => decide (key1 y = key1 x) := by
      rw [any_map_general]
      congr 1
      funext y
      simp [hk]
    rw [heq]
    by_cases h : xs.any (fun y => decide (key1 y = key1 x)) = true
    · rw [if_pos h, if_pos h, ih]
    · rw [if_neg h, if_neg h, List.map_cons, ih]

theorem dropDupLast_eq_self {α β : Type} [DecidableEq β] (key : α → β)
    (l : List α) (h : (l.map key).Nodup) :
    drop_duplicates_keep_last key l = l := by
  induction l with
  | nil => rfl
  | cons x xs ih =>
    simp only [List.map_cons, List.nodup_cons] at h
    simp only [drop_duplicates_keep_last]
    have hfalse : xs.any (fun y => decide (key y = key x)) = false := by
      rw [List.any_eq_false]
      intro y hy
      simp only [decide_eq_true_eq]
      intro hc
      exact h.1 (hc ▸ List.mem_map_of_mem key hy)
    rw [hfalse]
    simp [ih h.2]

theorem dropDupLast_keys_nodup {α β : Type} [DecidableEq β] (key : α → β)
    (l : List α) : ((drop_duplicates_keep_last key l).map key).Nodup := by
  induction l with
  | nil => simp [drop_duplicates_keep_last]
  | cons x xs ih =>
    simp only [drop_duplicates_keep_last]
    by_cases h : xs.any (fun y => decide (key y = key x)) = true
    · rw [if_pos h]
      exact ih
    · rw [if_neg h]
      simp only [List.map_cons, List.nodup_cons]
      refine ⟨?_, ih⟩
      intro hc
      rcases List.mem_map.mp hc with ⟨y, hy, hyk⟩
      have hyx : y ∈ xs := dropDupLast_subset key xs y hy
      have hfalse := Bool.not_eq_true _ |>.mp h
      rw [List.any_eq_false] at hfalse
      have := hfalse y hyx
      simp only [decide_eq_true_eq] at this
      exact this hyk

theorem dropDupLast_keys_sub {α β : Type} [DecidableEq β] (key : α → β)
    (l : List α) (k : β) (hk : k ∈ l.map key) :
    k ∈ (drop_duplicates_keep_last key l).map key := by
  induction l with
  | nil => simp at hk
  | cons x xs ih =>
    simp only [drop_duplicates_keep_last]
    rcases List.mem_map.mp hk with ⟨y, hy, rfl⟩
    by_cases h : xs.any (fun z => decide (key z = key x)) = true
    · rw [if_pos h]
      rcases List.mem_cons.mp hy with rfl | hy2
      · rcases List.any_eq_true.mp h with ⟨z, hz, hzz⟩
        have hzy : key z = key y := of_decide_eq_true hzz
        have hmem : key y ∈ xs.map key := hzy ▸ List.mem_map_of_mem key hz
        exact ih hmem
      · exact ih (List.mem_map_of_mem key hy2)
    · rw [if_neg h]
      rcases List.mem_cons.mp hy with rfl | hy2
      · exact List.mem_map_of_mem key (List.mem_cons_self _ _)
      · exact List.mem_cons_of_mem _ (ih (List.mem_map_of_mem key hy2))

theorem carried_eq_histMin (H : List Row) (cur : List Row)
    (hcur : ∀ r ∈ cur, r.first_time_seen = none) (k : Scraped) :
    carried_first_time_seen (combineTagged H cur) k = histMin H k := by
  unfold carried_first_time_seen histMin combineTagged
  by_cases hk : k.hasNA = true
  · rw [if_pos hk, if_pos hk]
  · rw [if_neg hk, if_neg hk]
    congr 1
    rw [List.filter_append, List.filterMap_append, List.filter_map, List.filter_map,
      List.filterMap_map, List.filterMap_map]
    have hnil : List.filterMap
        ((fun p : Dataset × Row => p.2.first_time_seen) ∘ (fun r => (Dataset.current, r)))
        (cur.filter ((fun p : Dataset × Row => decide (p.2.scraped = k)) ∘
          (fun r => (Dataset.current, r)))) = [] := by
      rw [List.filterMap_eq_nil_iff]
      intro r hr
      exact hcur r (List.mem_of_mem_filter hr)
    rw [hnil, List.append_nil]
    rfl

/-- Keep-last deduplication of tagged history rows followed by tagged
current rows: all current rows survive (their keys are distinct), and a
history row survives exactly when its key has no later duplicate and
does not occur among the current keys. -/
theorem dedupLast_tagged (F1 : Row → Dataset × Row) (F2 : Scraped → Dataset × Row)
    (hk1 : ∀ r, (F1 r).2.scraped = r.scraped) (hk2 : ∀ k, (F2 k).2.scraped = k)
    (H : List Row) (s : List Scraped) (hs : s.Nodup) :
    drop_duplicates_keep_last (fun p : Dataset × Row => p.2.scraped)
        (H.map F1 ++ s.map F2)
      = ((drop_duplicates_keep_last (fun r : Row => r.scraped) H).filter
            (fun r => !(s.any (fun k => decide (k = r.scraped))))).map F1
        ++ s.map F2 := by
  have hBnodup : ((s.map F2).map (fun p : Dataset × Row => p.2.scraped)).Nodup := by
    rw [List.map_map]
    have hcomp : ((fun p : Dataset × Row => p.2.scraped) ∘ F2) = fun k => k := by
      funext k
      exact hk2 k
    rw [hcomp]
    simpa using hs
  rw [dropDupLast_append,
    dropDupLast_map (fun r : Row => r.scraped) _ F1 hk1,
    dropDupLast_eq_self _ _ hBnodup, List.filter_map]
  congr 2
  apply List.filter_congr
  intro r _
  simp only [Function.comp]
  congr 1
  rw [any_map_general]
  congr 1
  funext k
  rw [hk2, hk1]

/-- Specialisation of `dedupLast_tagged` to the carried-minimum shape. -/
theorem dedupLast_tagged_g (g : Scraped → Option Nat) (H : List Row)
    (s : List Scraped) (hs : s.Nodup) :
    drop_duplicates_keep_last (fun p : Dataset × Row => p.2.scraped)
        (H.map (fun r => (Dataset.history,
            { r with first_time_seen := g r.scraped }))
          ++ s.map (fun k => (Dataset.current,
            { scraped := k, latitude := none, longitude := none,
              first_time_seen := g k, not_seen_since := none })))
      = ((drop_duplicates_keep_last (fun r : Row => r.scraped) H).filter
            (fun r => !(s.any (fun k => decide (k = r.scraped))))).map
          (fun r => (Dataset.history,
            { r with first_time_seen := g r.scraped }))
        ++ s.map (fun k => (Dataset.current,
            { scraped := k, latitude := none, longitude := none,
              first_time_seen := g k, not_seen_since := none })) :=
  dedupLast_tagged _ _ (fun _ => rfl) (fun _ => rfl) H s hs

/-- Normal form of the shared reconciliation steps: the kept history
rows (last occurrence of each scraped tuple whose tuple is absent from
the deduplicated snapshot) with carried-and-filled first_time_seen,
followed by one current row per deduplicated snapshot tuple. -/
theorem reconcileShared_eq (H : List Row) (S : List Scraped) (d : Nat) :
    reconcileShared H S d =
      ((lastByScraped H).filter
          (fun r => !((drop_duplicates_keep_first id S).any
              (fun k => decide (k = r.scraped))))).map
        (fun r => (Dataset.history,
          { r with first_time_seen := some ((histMin H r.scraped).getD d) }))
      ++ (drop_duplicates_keep_first id S).map
        (fun k => (Dataset.current,
          { scraped := k, latitude := none, longitude := none,
            first_time_seen := some ((histMin H k).getD d),
            not_seen_since := none })) := by
  have hfts : ∀ r ∈ (drop_duplicates_keep_first id S).map mkCurrentRow,
      r.first_time_seen = none := by
    intro r hr
    rcases List.mem_map.mp hr with ⟨k, _, rfl⟩
    rfl
  have h1 : reconcileShared H S d
      = (drop_duplicates_keep_last (fun p : Dataset × Row => p.2.scraped)
          ((combineTagged H ((drop_duplicates_keep_first id S).map mkCurrentRow)).map
            (fun p => (p.1,
              { p.2 with first_time_seen := histMin H p.2.scraped })))).map
          (fun p => (p.1,
            { p.2 with first_time_seen := some (p.2.first_time_seen.getD d) })) := by
    simp only [reconcileShared]
    congr 2
    apply List.map_congr_left
    intro p _
    rw [carried_eq_histMin H _ hfts]
  have h2 : (combineTagged H ((drop_duplicates_keep_first id S).map mkCurrentRow)).map
        (fun p => (p.1, { p.2 with first_time_seen := histMin H p.2.scraped }))
      = H.map (fun r => (Dataset.history,
          { r with first_time_seen := histMin H r.scraped }))
        ++ (drop_duplicates_keep_first id S).map (fun k => (Dataset.current,
          { scraped := k, latitude := none, longitude := none,
            first_time_seen := histMin H k, not_seen_since := none })) := by
    simp only [combineTagged, List.map_append, List.map_map]
    congr 1
  rw [h1, h2,
    dedupLast_tagged_g (histMin H) H (drop_duplicates_keep_first id S)
      (dropDupFirst_id_nodup S),
    List.map_append, List.map_map, List.map_map, lastByScraped]
  rfl

/-- Closed form of the pipeline.py reconciliation: keys absent from the
snapshot keep their row with not_seen_since filled only when null; each
deduplicated snapshot tuple yields a fresh row with carried
first_time_seen and null not_seen_since. -/
theorem consolidar_csvs_eq (H : List Row) (S : List Scraped) (d : Nat) :
    consolidar_csvs H S d =
      ((lastByScraped H).filter
          (fun r => !((drop_duplicates_keep_first id S).any
              (fun k => decide (k = r.scraped))))).map
        (fun r => { r with
          first_time_seen := some ((histMin H r.scraped).getD d),
          not_seen_since := some (r.not_seen_since.getD d) })
      ++ (drop_duplicates_keep_first id S).map
        (fun k => { scraped := k, latitude := none, longitude := none,
                    first_time_seen := some ((histMin H k).getD d),
                    not_seen_since := none }) := by
  unfold consolidar_csvs
  rw [reconcileShared_eq, List.map_append, List.map_map, List.map_map]
  rfl

/-- Closed form of the psa.py reconciliation: identical to
`consolidar_csvs_eq` except that kept history rows get
not_seen_since = today unconditionally. -/
theorem update_records_eq (H : List Row) (S : List Scraped) (d : Nat) :
    update_records H S d =
      ((lastByScraped H).filter
          (fun r => !((drop_duplicates_keep_first id S).any
              (fun k => decide (k = r.scraped))))).map
        (fun r => { r with
          first_time_seen := some ((histMin H r.scraped).getD d),
          not_seen_since := some d })
      ++ (drop_duplicates_keep_first id S).map
        (fun k => { scraped := k, latitude := none, longitude := none,
                    first_time_seen := some ((histMin H k).getD d),
                    not_seen_since := none }) := by
  unfold update_records
  rw [reconcileShared_eq, List.map_append, List.map_map, List.map_map]
  rfl

theorem mem_lastByScraped_of_unique (H : List Row) (r : Row)
    (hu : H.filter (fun x => decide (x.scraped = r.scraped)) = [r]) :
    r ∈ lastByScraped H := by
  have hrH : r ∈ H := by
    have hmem : r ∈ H.filter (fun x => decide (x.scraped = r.scraped)) := by
      rw [hu]
      exact List.mem_singleton.mpr rfl
    exact List.mem_of_mem_filter hmem
  have hkey : r.scraped ∈ (lastByScraped H).map (fun x => x.scraped) :=
    dropDupLast_keys_sub _ H _ (List.mem_map_of_mem _ hrH)
  rcases List.mem_map.mp hkey with ⟨y, hy, hyk⟩
  have hyH : y ∈ H := dropDupLast_subset _ H y hy
  have hyf : y ∈ H.filter (fun x => decide (x.scraped = r.scraped)) :=
    List.mem_filter.mpr ⟨hyH, by simp [hyk]⟩
  rw [hu] at hyf
  exact (List.mem_singleton.mp hyf) ▸ hy

theorem histMin_of_unique (H : List Row) (r : Row)
    (hu : H.filter (fun x => decide (x.scraped = r.scraped)) = [r])
    (hna : r.scraped.hasNA = false) :
    histMin H r.scraped = r.first_time_seen := by
  unfold histMin
  rw [if_neg (by simp [hna]), hu]
  cases hft : r.first_time_seen with
  | none => simp [List.filterMap, hft]
  | some f => simp [List.filterMap, hft, List.min?]

/-- A fully populated scraped tuple used in concrete evaluations. -/
def sampleScraped : Scraped :=
  { link := some "8444401796", endereco := some "RUA A, 10",
    bairro := some "CENTRO", descricao := some "Casa",
    preco := some 100000, avaliacao := some 120000, desconto := some 0,
    modalidade := some "Venda Direta", foto := some "F",
    cidade := some "Porto Velho", estado := some "RO" }

/-- A tuple with the same identity key (estado, cidade, link) as
`sampleScraped` but a different price. -/
def sampleScrapedPreco : Scraped := { sampleScraped with preco := some 90000 }

/-- A history row for `sampleScraped` with populated coordinates, an old
first_time_seen and an already-set not_seen_since. -/
def sampleHistoryRow : Row :=
  { scraped := sampleScraped, latitude := some 1, longitude := some 2,
    first_time_seen := some 10, not_seen_since := some 25 }

/-- A history row whose full scraped tuple is unique in `H` and whose
identity key is absent from the snapshot is kept by `consolidar_csvs`
with every field unchanged except not_seen_since, which is filled with
the run date only when it was null. -/
theorem consolidar_history_only_mem (H : List Row) (S : List Scraped) (d : Nat)
    (r : Row)
    (hu : H.filter (fun x => decide (x.scraped = r.scraped)) = [r])
    (hna : r.scraped.hasNA = false)
    (habs : ∀ s ∈ S, identityKey s ≠ identityKey r.scraped)
    (hft : r.first_time_seen.isSome) :
    { r with not_seen_since := some (r.not_seen_since.getD d) }
      ∈ consolidar_csvs H S d := by
  rw [consolidar_csvs_eq]
  apply List.mem_append_left
  have hX : (drop_duplicates_keep_first id S).any
      (fun k => decide (k = r.scraped)) = false := by
    rw [List.any_eq_false]
    intro k hk
    simp only [decide_eq_true_eq]
    intro hkr
    exact habs k ((dropDupFirst_id_mem S k).mp hk) (by rw [hkr])
  have hkeep : r ∈ (lastByScraped H).filter
      (fun x => !((drop_duplicates_keep_first id S).any
        (fun k => decide (k = x.scraped)))) := by
    apply List.mem_filter.mpr
    refine ⟨mem_lastByScraped_of_unique H r hu, ?_⟩
    rw [hX]
    rfl
  have hmap := List.mem_map_of_mem
    (fun x => { x with
      first_time_seen := some ((histMin H x.scraped).getD d),
      not_seen_since := some (x.not_seen_since.getD d) }) hkeep
  rcases Option.isSome_iff_exists.mp hft with ⟨f, hf⟩
  have heq : ({ r with
      first_time_seen := some ((histMin H r.scraped).getD d),
      not_seen_since := some (r.not_seen_since.getD d) } : Row)
      = { r with not_seen_since := some (r.not_seen_since.getD d) } := by
    rw [histMin_of_unique H r hu hna, hf, Option.getD_some, ← hf]
  rw [← heq]
  exact hmap

/-- The enrichment loop preserves every column except latitude and
longitude, and returns rows that already have a latitude unchanged. -/
theorem geocodificar_frame_forall (provider : String → GeoResult) (c : Cache)
    (df : List Row) :
    List.Forall₂ (fun a b =>
        b.scraped = a.scraped ∧ b.first_time_seen = a.first_time_seen ∧
        b.not_seen_since = a.not_seen_since ∧ (a.latitude ≠ none → b = a))
      df (geocodificar_dataframe provider c df).1 := by
  induction df generalizing c with
  | nil =>
    simp only [geocodificar_dataframe]
    exact List.Forall₂.nil
  | cons r rs ih =>
    simp only [geocodificar_dataframe]
    by_cases h : r.latitude = none
    · rw [if_pos h]
      by_cases h2 : buildAddress r = ""
      · rw [if_pos h2]
        exact List.Forall₂.cons ⟨rfl, rfl, rfl, fun hn => absurd h hn⟩ (ih _)
      · rw [if_neg h2]
        exact List.Forall₂.cons ⟨rfl, rfl, rfl, fun hn => absurd h hn⟩ (ih _)
    · rw [if_neg h]
      exact List.Forall₂.cons ⟨rfl, rfl, rfl, fun _ => rfl⟩ (ih _)

theorem dropDupFirstAux_sublist {α β : Type} [DecidableEq β] (key : α → β)
    (seen : List β) (l : List α) :
    (dropDupFirstAux key seen l).Sublist l := by
  induction l generalizing seen with
  | nil => simp [dropDupFirstAux]
  | cons y ys ih =>
    simp only [dropDupFirstAux]
    by_cases h : List.any seen (fun k => decide (k = key y)) = true
    · rw [if_pos h]
      exact (ih seen).cons y
    · rw [if_neg h]
      exact (ih (key y :: seen)).cons₂ y

/-- C1: for a key present only in the prior history, the pipeline.py
reconciliation (consolidar_csvs) keeps the row with every field
unchanged except not_seen_since, which is filled with the current run
date only when it was previously null; the psa.py reconciliation
(update_records) instead overwrites an already-set date on every run
(see the counterexample). -/
theorem C1_not_seen_since_only_if_null (H : List Row) (S : List Scraped) (d : Nat)
    (r : Row)
    (hu : H.filter (fun x => decide (x.scraped = r.scraped)) = [r])
    (hna : r.scraped.hasNA = false)
    (habs : ∀ s ∈ S, identityKey s ≠ identityKey r.scraped)
    (hft : r.first_time_seen.isSome) :
    { r with not_seen_since := some (r.not_seen_since.getD d) }
      ∈ consolidar_csvs H S d :=
  consolidar_history_only_mem H S d r hu hna habs hft

/-- C1 counterexample: a history row whose not_seen_since is already set
to day 25 is reconciled by psa.py update_records on day 30 with the key
still absent; the stored date is overwritten with day 30 instead of
being kept. -/
theorem C1_counterexample :
    sampleHistoryRow.not_seen_since = some 25 ∧
    (update_records [sampleHistoryRow] [] 30).map (fun r => r.not_seen_since)
      = [some 30] ∧
    (update_records [sampleHistoryRow] [] 30).map (fun r => r.not_seen_since)
      ≠ [some 25] := by
  refine ⟨rfl, by decide, by decide⟩

/-- C1 witness: concrete instance of the kept history row in
consolidar_csvs, with the already-set not_seen_since preserved. -/
theorem C1_witness :
    ({ sampleHistoryRow with not_seen_since := some 25 } : Row)
      ∈ consolidar_csvs [sampleHistoryRow] [] 30 :=
  C1_not_seen_since_only_if_null [sampleHistoryRow] [] 30 sampleHistoryRow
    (by decide) (by decide) (by decide) (by decide)

/-- C2 (amended): first_time_seen is carried over unchanged exactly when
the snapshot row matches the historical row on all scraped columns; the
surviving row for that tuple keeps the historical date. -/
theorem C2_first_time_seen_preserved_on_exact_match (H : List Row)
    (S : List Scraped) (d : Nat) (r : Row) (f : Nat)
    (hu : H.filter (fun x => decide (x.scraped = r.scraped)) = [r])
    (hna : r.scraped.hasNA = false)
    (hS : r.scraped ∈ S)
    (hf : r.first_time_seen = some f) :
    ({ scraped := r.scraped, latitude := none, longitude := none,
       first_time_seen := some f, not_seen_since := none } : Row)
      ∈ consolidar_csvs H S d := by
  rw [consolidar_csvs_eq]
  apply List.mem_append_right
  have hmem : r.scraped ∈ drop_duplicates_keep_first id S :=
    (dropDupFirst_id_mem S _).mpr hS
  have hmap := List.mem_map_of_mem
    (fun k => Row.mk k none none (some ((histMin H k).getD d)) none) hmem
  have heq : Row.mk r.scraped none none (some ((histMin H r.scraped).getD d)) none
      = Row.mk r.scraped none none (some f) none := by
    rw [histMin_of_unique H r hu hna, hf, Option.getD_some]
  rw [← heq]
  exact hmap

/-- C2 counterexample: a snapshot row with the same identity key
(estado, cidade, link) as the historical row but a different price is
treated as a brand-new record: the reconciled table contains a row with
that identity key whose first_time_seen is the run date (day 30), not
the historical date (day 10). -/
theorem C2_counterexample :
    identityKey sampleScrapedPreco = identityKey sampleScraped ∧
    sampleScrapedPreco ≠ sampleScraped ∧
    ¬ (∀ r ∈ consolidar_csvs [sampleHistoryRow] [sampleScrapedPreco] 30,
        identityKey r.scraped = identityKey sampleScraped →
          r.first_time_seen = some 10) := by
  refine ⟨rfl, by decide, by decide⟩

/-- C2 witness: concrete instance of the exact-match preservation. -/
theorem C2_witness :
    ({ scraped := sampleScraped, latitude := none, longitude := none,
       first_time_seen := some 10, not_seen_since := none } : Row)
      ∈ consolidar_csvs [sampleHistoryRow] [sampleScraped] 30 :=
  C2_first_time_seen_preserved_on_exact_match [sampleHistoryRow] [sampleScraped]
    30 sampleHistoryRow 10 (by decide) (by decide) (by decide) (by decide)

/-- C3 (amended): populated coordinates survive reconciliation for rows
whose key is absent from the snapshot, and the enrichment step returns
every row with a non-null latitude unchanged; for a key present in the
snapshot, however, reconciliation discards the historical coordinates
(see the counterexample). -/
theorem C3_coords_preserved (H : List Row) (S : List Scraped) (d : Nat) (r : Row)
    (provider : String → GeoResult) (c : Cache) (df : List Row)
    (hu : H.filter (fun x => decide (x.scraped = r.scraped)) = [r])
    (hna : r.scraped.hasNA = false)
    (habs : ∀ s ∈ S, identityKey s ≠ identityKey r.scraped)
    (hft : r.first_time_seen.isSome) :
    (∃ q ∈ consolidar_csvs H S d,
        q.scraped = r.scraped ∧ q.latitude = r.latitude ∧
          q.longitude = r.longitude) ∧
    List.Forall₂ (fun a b => a.latitude ≠ none → b = a)
      df (geocodificar_dataframe provider c df).1 := by
  constructor
  · exact ⟨_, consolidar_history_only_mem H S d r hu hna habs hft, rfl, rfl, rfl⟩
  · exact List.Forall₂.imp (fun _ _ hab => hab.2.2.2)
      (geocodificar_frame_forall provider c df)

/-- C3 counterexample: the history row has populated coordinates
(1, 2); the snapshot contains the identical scraped tuple; the
reconciled table's row for that tuple has null coordinates — populated
coordinates are replaced by null, contradicting the claim. -/
theorem C3_counterexample :
    sampleHistoryRow.latitude = some 1 ∧
    (consolidar_csvs [sampleHistoryRow] [sampleScraped] 30).map
        (fun r => (r.latitude, r.longitude))
      = [(none, none)] := by
  refine ⟨rfl, by decide⟩

/-- C3 witness: concrete instance of the coordinate-preservation
theorem. -/
theorem C3_witness :
    (∃ q ∈ consolidar_csvs [sampleHistoryRow] [] 30,
        q.scraped = sampleHistoryRow.scraped ∧
          q.latitude = sampleHistoryRow.latitude ∧
          q.longitude = sampleHistoryRow.longitude) ∧
    List.Forall₂ (fun a b => a.latitude ≠ none → b = a)
      [sampleHistoryRow]
      (geocodificar_dataframe (fun _ => GeoResult.noResult) []
        [sampleHistoryRow]).1 :=
  C3_coords_preserved [sampleHistoryRow] [] 30 sampleHistoryRow
    (fun _ => GeoResult.noResult) [] [sampleHistoryRow]
    (by decide) (by decide) (by decide) (by decide)

/-- C4 (amended): the pre-merge snapshot deduplication removes only
exact duplicates over the full scraped column tuple, keeping the first
occurrence: the result is a duplicate-free, order-preserving sublist
containing every distinct snapshot value; rows sharing the identity key
but differing in any other column all survive (see the
counterexample). -/
theorem C4_snapshot_dedup_full_tuple (S : List Scraped) (s : Scraped)
    (hs : s ∈ S) :
    (drop_duplicates_keep_first id S).Sublist S ∧
    (drop_duplicates_keep_first id S).Nodup ∧
    s ∈ drop_duplicates_keep_first id S :=
  ⟨dropDupFirstAux_sublist id [] S, dropDupFirst_id_nodup S,
    (dropDupFirst_id_mem S s).mpr hs⟩

/-- C4 counterexample: a snapshot with two rows sharing the identity key
(estado, cidade, link) but different prices keeps both rows through the
pre-merge deduplication and through the whole reconciliation, so more
than one row per identity key survives, contradicting the claim. -/
theorem C4_counterexample :
    identityKey sampleScrapedPreco = identityKey sampleScraped ∧
    sampleScrapedPreco ≠ sampleScraped ∧
    drop_duplicates_keep_first id [sampleScraped, sampleScrapedPreco]
      = [sampleScraped, sampleScrapedPreco] ∧
    ¬ (∀ a ∈ consolidar_csvs [] [sampleScraped, sampleScrapedPreco] 30,
        ∀ b ∈ consolidar_csvs [] [sampleScraped, sampleScrapedPreco] 30,
          identityKey a.scraped = identityKey b.scraped → a = b) := by
  refine ⟨rfl, by decide, by decide, by decide⟩

/-- C4 witness: concrete instance of the deduplication
characterisation. -/
theorem C4_witness :
    (drop_duplicates_keep_first id
        [sampleScraped, sampleScrapedPreco, sampleScraped]).Sublist
      [sampleScraped, sampleScrapedPreco, sampleScraped] ∧
    (drop_duplicates_keep_first id
        [sampleScraped, sampleScrapedPreco, sampleScraped]).Nodup ∧
    sampleScraped ∈ drop_duplicates_keep_first id
        [sampleScraped, sampleScrapedPreco, sampleScraped] :=
  C4_snapshot_dedup_full_tuple [sampleScraped, sampleScrapedPreco, sampleScraped]
    sampleScraped (by decide)

/-- C9: the enrichment pass mutates only the latitude and longitude
columns: every other column of every row is returned unchanged, and a
row whose latitude is already non-null is returned entirely
unchanged. -/
theorem C9_geocodificar_frame (provider : String → GeoResult) (c : Cache)
    (df : List Row) :
    List.Forall₂ (fun a b =>
        b.scraped = a.scraped ∧ b.first_time_seen = a.first_time_seen ∧
        b.not_seen_since = a.not_seen_since ∧ (a.latitude ≠ none → b = a))
      df (geocodificar_dataframe provider c df).1 :=
  geocodificar_frame_forall provider c df

theorem find_append_of_none {α : Type} (p : α → Bool) (l1 l2 : List α)
    (h : l1.find? p = none) : (l1 ++ l2).find? p = l2.find? p := by
  induction l1 with
  | nil => rfl
  | cons x xs ih =>
    by_cases hx : p x = true
    · rw [List.find?_cons_of_pos _ hx] at h
      cases h
    · rw [List.find?_cons_of_neg _ hx] at h
      rw [List.cons_append, List.find?_cons_of_neg _ hx]
      exact ih h

/-- C6: the geocode cache is first-write-wins: after inserting a pair
for a fresh address, a second insert for the same address is silently
discarded (the cache is unchanged and lookups return the first pair),
and insertion keeps the address column duplicate-free. -/
theorem C6_cache_first_write_wins (c : Cache) (a : String) (x1 y1 x2 y2 : Rat)
    (hfresh : get_cached_coords c a = none)
    (hnodup : (c.map Prod.fst).Nodup) :
    get_cached_coords (cache_coords (cache_coords c a x1 y1) a x2 y2) a
      = some (x1, y1) ∧
    cache_coords (cache_coords c a x1 y1) a x2 y2 = cache_coords c a x1 y1 ∧
    ((cache_coords (cache_coords c a x1 y1) a x2 y2).map Prod.fst).Nodup := by
  have hfind : c.find? (fun e => decide (e.1 = a)) = none := by
    unfold get_cached_coords at hfresh
    exact Option.map_eq_none'.mp hfresh
  have hany : c.any (fun e => decide (e.1 = a)) = false := by
    rw [List.any_eq_false]
    intro e he
    have := List.find?_eq_none.mp hfind e he
    simpa using this
  have hput1 : cache_coords c a x1 y1 = c ++ [(a, x1, y1)] := by
    unfold cache_coords
    rw [hany]
    rfl
  have hany2 : (c ++ [(a, x1, y1)]).any (fun e => decide (e.1 = a)) = true := by
    rw [List.any_append]
    simp
  have hput2 : cache_coords (cache_coords c a x1 y1) a x2 y2
      = cache_coords c a x1 y1 := by
    rw [hput1]
    unfold cache_coords
    rw [if_pos hany2]
  have hnotmem : a ∉ c.map Prod.fst := by
    intro hmem
    rcases List.mem_map.mp hmem with ⟨e, he, hea⟩
    have := List.find?_eq_none.mp hfind e he
    simp [hea] at this
  refine ⟨?_, hput2, ?_⟩
  · rw [hput2, hput1]
    unfold get_cached_coords
    rw [find_append_of_none _ _ _ hfind]
    simp [List.find?]
  · rw [hput2, hput1, List.map_append]
    refine List.Nodup.append hnodup (by simp) ?_
    intro u hu hv
    simp only [List.map_cons, List.map_nil, List.mem_singleton] at hv
    subst hv
    exact hnotmem hu

/-- C6 witness: the concrete two-insert scenario from the spec. -/
theorem C6_witness :
    get_cached_coords (cache_coords (cache_coords [] "r" 1 2) "r" 9 9) "r"
      = some (1, 2) ∧
    cache_coords (cache_coords [] "r" 1 2) "r" 9 9 = cache_coords [] "r" 1 2 ∧
    ((cache_coords (cache_coords [] "r" 1 2) "r" 9 9).map Prod.fst).Nodup :=
  C6_cache_first_write_wins [] "r" 1 2 9 9 (by decide) (by decide)

/-- True for every provider outcome other than a successful location:
no result, timeout, service unavailable, service error, or any other
exception. -/
def GeoResult.isFailure : GeoResult → Bool
  | GeoResult.ok _ _ => false
  | _ => true

/-- C7: a failed geocode attempt writes nothing to the cache — the call
returns (None, None) with the cache unchanged (hence still no entry for
the address), and a subsequent call for the same address with a now
succeeding provider reaches the provider and caches its result. -/
theorem C7_failed_geocode_not_cached (provider provider2 : String → GeoResult)
    (c : Cache) (a : String) (x y : Rat)
    (hblank : strBlank a = false)
    (hmiss : get_cached_coords c a = none)
    (hfail : (provider a).isFailure = true)
    (hok : provider2 a = GeoResult.ok x y) :
    get_coordinates_for_address provider c a = ((none, none), c) ∧
    get_cached_coords (get_coordinates_for_address provider c a).2 a = none ∧
    get_coordinates_for_address provider2 c a
      = ((some x, some y), cache_coords c a x y) := by
  have h1 : get_coordinates_for_address provider c a = ((none, none), c) := by
    unfold get_coordinates_for_address
    rw [if_neg (by simp [hblank]), hmiss]
    cases hp : provider a with
    | ok lat lon =>
        rw [hp] at hfail
        simp [GeoResult.isFailure] at hfail
    | noResult => rfl
    | timedOut => rfl
    | unavailable => rfl
    | serviceError => rfl
    | unexpectedError => rfl
  refine ⟨h1, ?_, ?_⟩
  · rw [h1]
    exact hmiss
  · unfold get_coordinates_for_address
    rw [if_neg (by simp [hblank]), hmiss, hok]

/-- C7 witness: a timing-out provider on a fresh address, followed by a
succeeding provider for the same address. -/
theorem C7_witness :
    get_coordinates_for_address (fun _ => GeoResult.timedOut) [] "Rua A, RO"
      = ((none, none), []) ∧
    get_cached_coords
        (get_coordinates_for_address (fun _ => GeoResult.timedOut) []
          "Rua A, RO").2 "Rua A, RO" = none ∧
    get_coordinates_for_address (fun _ => GeoResult.ok 3 4) [] "Rua A, RO"
      = ((some 3, some 4), cache_coords [] "Rua A, RO" 3 4) :=
  C7_failed_geocode_not_cached (fun _ => GeoResult.timedOut)
    (fun _ => GeoResult.ok 3 4) [] "Rua A, RO" 3 4
    (by decide) (by decide) (by decide) (by decide)

/-- C10: every row produced by either reconciliation has a non-null
first_time_seen: a value that could not be carried over from history is
filled with the current run date before the table is written. -/
theorem C10_first_time_seen_total (H : List Row) (S : List Scraped) (d : Nat) :
    (∀ r ∈ consolidar_csvs H S d, r.first_time_seen.isSome) ∧
    (∀ r ∈ update_records H S d, r.first_time_seen.isSome) := by
  constructor
  · intro r hr
    rw [consolidar_csvs_eq] at hr
    rcases List.mem_append.mp hr with h | h
    · rcases List.mem_map.mp h with ⟨x, _, rfl⟩
      rfl
    · rcases List.mem_map.mp h with ⟨k, _, rfl⟩
      rfl
  · intro r hr
    rw [update_records_eq] at hr
    rcases List.mem_append.mp hr with h | h
    · rcases List.mem_map.mp h with ⟨x, _, rfl⟩
      rfl
    · rcases List.mem_map.mp h with ⟨k, _, rfl⟩
      rfl

/-- C10 witness: concrete instance on a one-row history. -/
theorem C10_witness : sampleHistoryRow.first_time_seen.isSome :=
  (C10_first_time_seen_total [sampleHistoryRow] [] 30).1 sampleHistoryRow
    (by decide)

theorem histMin_hasNA (L : List Row) (k : Scraped) (h : k.hasNA = true) :
    histMin L k = none := by
  unfold histMin
  rw [if_pos h]

theorem filter_eq_singleton_of_nodup_keys (L : List Row) (r : Row)
    (h : (L.map (fun x => x.scraped)).Nodup) (hr : r ∈ L) :
    L.filter (fun x => decide (x.scraped = r.scraped)) = [r] := by
  induction L with
  | nil => cases hr
  | cons y ys ih =>
    simp only [List.map_cons, List.nodup_cons] at h
    rcases List.mem_cons.mp hr with rfl | hr2
    · rw [List.filter_cons, if_pos (by simp)]
      have hnil : ys.filter (fun x => decide (x.scraped = r.scraped)) = [] := by
        rw [List.filter_eq_nil_iff]
        intro x hx
        simp only [decide_eq_true_eq]
        intro hc
        exact h.1 (hc ▸ List.mem_map_of_mem _ hx)
      rw [hnil]
    · have hne : ¬ (y.scraped = r.scraped) := by
        intro hc
        exact h.1 (hc ▸ List.mem_map_of_mem _ hr2)
      rw [List.filter_cons, if_neg (by simp [hne])]
      exact ih h.2 hr2

theorem map_eq_self_of_eq {α : Type} (f : α → α) (l : List α)
    (h : ∀ x ∈ l, f x = x) : l.map f = l := by
  conv_rhs => rw [← List.map_id l]
  exact List.map_congr_left h

theorem map_keys_of_preserving (f : Row → Row) (l : List Row)
    (h : ∀ r, (f r).scraped = r.scraped) :
    (l.map f).map (fun x => x.scraped) = l.map (fun x => x.scraped) := by
  rw [List.map_map]
  apply List.map_congr_left
  intro x _
  exact h x

theorem row_eta_fields (a : Row) (x y : Option Nat)
    (hx : x = a.first_time_seen) (hy : y = a.not_seen_since) :
    Row.mk a.scraped a.latitude a.longitude x y = a := by
  rw [hx, hy]

/-- Reapplying the pipeline.py reconciliation to its own output with the
same snapshot and run date reproduces the output exactly. -/
theorem consolidar_idempotent (H : List Row) (S : List Scraped) (d : Nat) :
    consolidar_csvs (consolidar_csvs H S d) S d = consolidar_csvs H S d := by
  rw [consolidar_csvs_eq H S d, consolidar_csvs_eq]
  set s1 : List Scraped := drop_duplicates_keep_first id S with hs1
  set q : Row → Bool := fun r => !(s1.any (fun k => decide (k = r.scraped))) with hq
  set FA : Row → Row := fun r =>
    Row.mk r.scraped r.latitude r.longitude
      (some ((histMin H r.scraped).getD d))
      (some (r.not_seen_since.getD d)) with hFA
  set FB : Scraped → Row := fun k =>
    Row.mk k none none (some ((histMin H k).getD d)) none with hFB
  set A : List Row := ((lastByScraped H).filter q).map FA with hA
  set B : List Row := s1.map FB with hB
  have hFBsc : ∀ k, (FB k).scraped = k := fun k => rfl
  have hs1nodup : s1.Nodup := by
    rw [hs1]
    exact dropDupFirst_id_nodup S
  have hAkeys : (A.map (fun x => x.scraped)).Nodup := by
    rw [hA, map_keys_of_preserving FA _ (fun r => rfl)]
    exact List.Nodup.sublist ((List.filter_sublist _).map _)
      (dropDupLast_keys_nodup (fun r : Row => r.scraped) H)
  have hBkeys : B.map (fun x => x.scraped) = s1 := by
    rw [hB, List.map_map]
    have hcomp : ((fun x : Row => x.scraped) ∘ FB) = fun k => k := by
      funext k
      exact hFBsc k
    rw [hcomp]
    exact List.map_id' s1
  have hqA : ∀ a ∈ A, q a = true := by
    intro a ha
    rw [hA] at ha
    rcases List.mem_map.mp ha with ⟨r, hr, rfl⟩
    exact (List.mem_filter.mp hr).2
  have hqB : ∀ b ∈ B, q b = false := by
    intro b hb
    rw [hB] at hb
    rcases List.mem_map.mp hb with ⟨k, hk, rfl⟩
    have hany : s1.any (fun kk => decide (kk = (FB k).scraped)) = true :=
      List.any_eq_true.mpr ⟨k, hk, by simp [hFBsc]⟩
    rw [hq]
    simp only [hany, Bool.not_true]
  have hABkeys : ((A ++ B).map (fun x => x.scraped)).Nodup := by
    rw [List.map_append, hBkeys]
    refine List.Nodup.append hAkeys hs1nodup ?_
    intro u hu hv
    rcases List.mem_map.mp hu with ⟨a, haA, rfl⟩
    have hqa := hqA a haA
    rw [hq] at hqa
    have hfalse : s1.any (fun k => decide (k = a.scraped)) = false := by
      simpa using hqa
    rw [List.any_eq_false] at hfalse
    have := hfalse a.scraped hv
    simp at this
  have hlast : lastByScraped (A ++ B) = A ++ B := by
    unfold lastByScraped
    exact dropDupLast_eq_self _ _ hABkeys
  have hfilter : (A ++ B).filter q = A := by
    rw [List.filter_append, List.filter_eq_self.mpr hqA]
    have hBnil : B.filter q = [] := by
      rw [List.filter_eq_nil_iff]
      intro b hb
      simp [hqB b hb]
    rw [hBnil, List.append_nil]
  have hmapA : A.map (fun r =>
      Row.mk r.scraped r.latitude r.longitude
        (some ((histMin (A ++ B) r.scraped).getD d))
        (some (r.not_seen_since.getD d))) = A := by
    apply map_eq_self_of_eq
    intro a ha
    rcases List.mem_map.mp (by rw [hA] at ha; exact ha :
      a ∈ ((lastByScraped H).filter q).map FA) with ⟨r, hr, rfl⟩
    apply row_eta_fields
    · show some ((histMin (A ++ B) r.scraped).getD d)
        = some ((histMin H r.scraped).getD d)
      by_cases hna : r.scraped.hasNA = true
      · rw [histMin_hasNA _ _ hna, histMin_hasNA H _ hna]
      · have hna2 : r.scraped.hasNA = false := Bool.eq_false_iff.mpr hna
        have hmin : histMin (A ++ B) r.scraped
            = some ((histMin H r.scraped).getD d) :=
          histMin_of_unique (A ++ B) (FA r)
            (filter_eq_singleton_of_nodup_keys (A ++ B) (FA r) hABkeys
              (List.mem_append_left _ ha))
            hna2
        rw [hmin, Option.getD_some]
    · show some ((some (r.not_seen_since.getD d)).getD d)
        = some (r.not_seen_since.getD d)
      rfl
  have hmapB : s1.map (fun k =>
      Row.mk k none none (some ((histMin (A ++ B) k).getD d)) none) = B := by
    rw [hB]
    apply List.map_congr_left
    intro k hk
    have hbmem : FB k ∈ A ++ B := by
      apply List.mem_append_right
      rw [hB]
      exact List.mem_map_of_mem FB hk
    congr 1
    by_cases hna : k.hasNA = true
    · rw [histMin_hasNA _ _ hna, histMin_hasNA H _ hna]
    · have hna2 : k.hasNA = false := Bool.eq_false_iff.mpr hna
      have hmin : histMin (A ++ B) k = some ((histMin H k).getD d) :=
        histMin_of_unique (A ++ B) (FB k)
          (filter_eq_singleton_of_nodup_keys (A ++ B) (FB k) hABkeys hbmem)
          hna2
      rw [hmin, Option.getD_some]
  rw [hlast, hfilter, hmapA, hmapB]

/-- Reapplying the psa.py reconciliation to its own output with the same
snapshot and run date reproduces the output exactly. -/
theorem update_records_idempotent (H : List Row) (S : List Scraped) (d : Nat) :
    update_records (update_records H S d) S d = update_records H S d := by
  rw [update_records_eq H S d, update_records_eq]
  set s1 : List Scraped := drop_duplicates_keep_first id S with hs1
  set q : Row → Bool := fun r => !(s1.any (fun k => decide (k = r.scraped))) with hq
  set FA : Row → Row := fun r =>
    Row.mk r.scraped r.latitude r.longitude
      (some ((histMin H r.scraped).getD d)) (some d) with hFA
  set FB : Scraped → Row := fun k =>
    Row.mk k none none (some ((histMin H k).getD d)) none with hFB
  set A : List Row := ((lastByScraped H).filter q).map FA with hA
  set B : List Row := s1.map FB with hB
  have hFBsc : ∀ k, (FB k).scraped = k := fun k => rfl
  have hs1nodup : s1.Nodup := by
    rw [hs1]
    exact dropDupFirst_id_nodup S
  have hAkeys : (A.map (fun x => x.scraped)).Nodup := by
    rw [hA, map_keys_of_preserving FA _ (fun r => rfl)]
    exact List.Nodup.sublist ((List.filter_sublist _).map _)
      (dropDupLast_keys_nodup (fun r : Row => r.scraped) H)
  have hBkeys : B.map (fun x => x.scraped) = s1 := by
    rw [hB, List.map_map]
    have hcomp : ((fun x : Row => x.scraped) ∘ FB) = fun k => k := by
      funext k
      exact hFBsc k
    rw [hcomp]
    exact List.map_id' s1
  have hqA : ∀ a ∈ A, q a = true := by
    intro a ha
    rw [hA] at ha
    rcases List.mem_map.mp ha with ⟨r, hr, rfl⟩
    exact (List.mem_filter.mp hr).2
  have hqB : ∀ b ∈ B, q b = false := by
    intro b hb
    rw [hB] at hb
    rcases List.mem_map.mp hb with ⟨k, hk, rfl⟩
    have hany : s1.any (fun kk => decide (kk = (FB k).scraped)) = true :=
      List.any_eq_true.mpr ⟨k, hk, by simp [hFBsc]⟩
    rw [hq]
    simp only [hany, Bool.not_true]
  have hABkeys : ((A ++ B).map (fun x => x.scraped)).Nodup := by
    rw [List.map_append, hBkeys]
    refine List.Nodup.append hAkeys hs1nodup ?_
    intro u hu hv
    rcases List.mem_map.mp hu with ⟨a, haA, rfl⟩
    have hqa := hqA a haA
    rw [hq] at hqa
    have hfalse : s1.any (fun k => decide (k = a.scraped)) = false := by
      simpa using hqa
    rw [List.any_eq_false] at hfalse
    have := hfalse a.scraped hv
    simp at this
  have hlast : lastByScraped (A ++ B) = A ++ B := by
    unfold lastByScraped
    exact dropDupLast_eq_self _ _ hABkeys
  have hfilter : (A ++ B).filter q = A := by
    rw [List.filter_append, List.filter_eq_self.mpr hqA]
    have hBnil : B.filter q = [] := by
      rw [List.filter_eq_nil_iff]
      intro b hb
      simp [hqB b hb]
    rw [hBnil, List.append_nil]
  have hmapA : A.map (fun r =>
      Row.mk r.scraped r.latitude r.longitude
        (some ((histMin (A ++ B) r.scraped).getD d)) (some d)) = A := by
    apply map_eq_self_of_eq
    intro a ha
    rcases List.mem_map.mp (by rw [hA] at ha; exact ha :
      a ∈ ((lastByScraped H).filter q).map FA) with ⟨r, hr, rfl⟩
    apply row_eta_fields
    · show some ((histMin (A ++ B) r.scraped).getD d)
        = some ((histMin H r.scraped).getD d)
      by_cases hna : r.scraped.hasNA = true
      · rw [histMin_hasNA _ _ hna, histMin_hasNA H _ hna]
      · have hna2 : r.scraped.hasNA = false := Bool.eq_false_iff.mpr hna
        have hmin : histMin (A ++ B) r.scraped
            = some ((histMin H r.scraped).getD d) :=
          histMin_of_unique (A ++ B) (FA r)
            (filter_eq_singleton_of_nodup_keys (A ++ B) (FA r) hABkeys
              (List.mem_append_left _ ha))
            hna2
        rw [hmin, Option.getD_some]
    · rfl
  have hmapB : s1.map (fun k =>
      Row.mk k none none (some ((histMin (A ++ B) k).getD d)) none) = B := by
    rw [hB]
    apply List.map_congr_left
    intro k hk
    have hbmem : FB k ∈ A ++ B := by
      apply List.mem_append_right
      rw [hB]
      exact List.mem_map_of_mem FB hk
    congr 1
    by_cases hna : k.hasNA = true
    · rw [histMin_hasNA _ _ hna, histMin_hasNA H _ hna]
    · have hna2 : k.hasNA = false := Bool.eq_false_iff.mpr hna
      have hmin : histMin (A ++ B) k = some ((histMin H k).getD d) :=
        histMin_of_unique (A ++ B) (FB k)
          (filter_eq_singleton_of_nodup_keys (A ++ B) (FB k) hABkeys hbmem)
          hna2
      rw [hmin, Option.getD_some]
  rw [hlast, hfilter, hmapA, hmapB]

/-- C5: reconciliation is deterministic — it is a pure function of the
history, the concatenated snapshot files (in order) and the run date,
so two runs on the same inputs produce identical tables in both
implementations — and moreover idempotent: reconciling the produced
table against the same snapshot and date reproduces it exactly. -/
theorem C5_reconciliation_deterministic_idempotent (H : List Row)
    (S : List Scraped) (d : Nat) :
    (consolidar_csvs H S d = consolidar_csvs H S d ∧
      update_records H S d = update_records H S d) ∧
    consolidar_csvs (consolidar_csvs H S d) S d = consolidar_csvs H S d ∧
    update_records (update_records H S d) S d = update_records H S d :=
  ⟨⟨rfl, rfl⟩, consolidar_idempotent H S d, update_records_idempotent H S d⟩

/-- C8: the legacy geocoding module configures a one-second client-side
rate limiter around provider calls, but the caixaaberta module actually
used by the pipeline has the limiter commented out and calls the
provider directly, so no minimum inter-request spacing is enforced by
the client, contrary to the module docstring. -/
theorem C8_rate_limiter_removed :
    legacy_min_delay_seconds = some 1 ∧ caixaaberta_min_delay_seconds = none :=
  ⟨rfl, rfl⟩
